import Mathlib

/-!
Shallow embedding of the `tramp!` macro from `src/lib.rs` of the
`parameterize` crate.

The crate exports one `macro_rules!` construct, `tramp!`, over
`thread_local!` slots of type `RefCell<T>`:

* single-binding arm `($ih:ident : $eh:expr => $b:block)` expands to
  `let old = $ih.with(|x| { let old = x.borrow().clone(); *x.borrow_mut() = $eh; old });`
  followed by the block `{ defer![$ih.with(|x| { *x.borrow_mut() = old.clone(); })]; $b }`;
* multi-binding arm `($ih:ident : $eh:expr, $($it:ident : $et:expr),* => $b:block)`
  expands to a block `{ let old = ...; defer![...]; tramp![$($it : $et),* => $b]; }`
  that recurses on the tail and, because the recursive call is a statement
  followed by a semicolon inside a plain block, evaluates to the unit value.

There is no arm for an empty binding list: the recursion bottoms out at the
single-binding arm, and an invocation with zero bindings matches neither arm.

We model a thread as a store mapping slot identities to values, and each
computation (a new-value expression `$eh`, the user block `$b`, or a whole
expansion) as a function from a store to an outcome (normal value or
propagating unwind), a final store, and a trace of install/restore events.
The scopeguard `defer!` runs its closure on every exit path, normal or
unwinding, which the embedding reflects by performing the restoring write
on both outcome branches.
-/

namespace Parameterize

/-- Values held by the thread-local slots; the crate tests use a `u32`
slot (`FOO`) and a `String` slot (`BAR`), and the multi-binding arm of the
macro evaluates to Rust unit. -/
inductive Val where
  | nat (n : Nat)
  | str (s : String)
  | unit
  deriving DecidableEq, Repr

/-- Identity of a `thread_local!` slot. -/
abbrev Var := Nat

/-- The per-thread state: the current value of every slot. -/
abbrev Store := Var → Val

/-- Observable events of one thread: a write performed at install time by
`*x.borrow_mut() = $eh`, and a write performed at restore time by the
deferred `*x.borrow_mut() = old.clone()`. -/
inductive Event where
  | install (v : Var) (n : Val)
  | restore (v : Var) (old : Val)
  deriving DecidableEq, Repr

/-- Result of running a piece of code: either it finishes normally with a
value, or it unwinds carrying an error of type `ε` (a Rust panic payload). -/
inductive Outcome (ε : Type) where
  | ok (r : Val)
  | err (e : ε)
  deriving DecidableEq, Repr

/-- A computation step: outcome, store after the step, events emitted. -/
abbrev Res (ε : Type) := Outcome ε × Store × List Event

/-- The user block `$b`: arbitrary code over the thread state. -/
abbrev Block (ε : Type) := Store → Res ε

/-- A new-value expression `$eh`: arbitrary code producing the value to
install (it may read or write slots, and it may unwind). -/
abbrev Exp (ε : Type) := Store → Res ε

/-- Writing a slot: `*x.borrow_mut() = n` for slot `v`. -/
def update (s : Store) (v : Var) (n : Val) : Store :=
  fun w => if w = v then n else s w

/-- The install sequence of either macro arm:
`let old = x.borrow().clone(); *x.borrow_mut() = $eh; old`.
The prior value is cloned first; then the right operand `$eh` of the
assignment is evaluated; only then is the slot written.  If `$eh` unwinds,
the write never happens and the unwind propagates with no event emitted
for this binding. On success the captured prior value is returned. -/
def install (v : Var) (e : Exp ε) (s : Store) : Res ε :=
  let old := s v
  let r := e s
  match r.1 with
  | Outcome.ok n => (Outcome.ok old, update r.2.1 v n, r.2.2 ++ [Event.install v n])
  | Outcome.err ex => (Outcome.err ex, r.2.1, r.2.2)

/-- Expansion of the single-binding arm `tramp!{v: e => B}`: install, then
a block that registers `defer![... = old.clone()]` and runs `B`.  The
deferred restore fires when the block scope exits on either path, so the
restoring write and its event are emitted for both outcomes of `B`; the
expansion ends with the block, so it carries the block outcome. -/
def tramp1 (v : Var) (e : Exp ε) (B : Block ε) (s : Store) : Res ε :=
  let i := install v e s
  match i.1 with
  | Outcome.ok old =>
      let b := B i.2.1
      (b.1, update b.2.1 v old, i.2.2 ++ b.2.2 ++ [Event.restore v old])
  | Outcome.err ex => (Outcome.err ex, i.2.1, i.2.2)

/-- The semicolon after the recursive `tramp![...]` call in the
multi-binding arm: a normal value is dropped and the surrounding plain
block evaluates to unit, while an unwind keeps propagating. -/
def discardVal : Outcome ε → Outcome ε
  | Outcome.ok _ => Outcome.ok Val.unit
  | Outcome.err e => Outcome.err e

/-- Expansion of the multi-binding arm for its head binding: install the
head, register its deferred restore, then run the already-expanded tail
`inner` as a statement inside the same block.  The block value is unit;
the deferred restore fires on both exit paths of `inner`. -/
def trampCons (v : Var) (e : Exp ε) (inner : Store → Res ε) (s : Store) : Res ε :=
  let i := install v e s
  match i.1 with
  | Outcome.ok old =>
      let b := inner i.2.1
      (discardVal b.1, update b.2.1 v old, i.2.2 ++ b.2.2 ++ [Event.restore v old])
  | Outcome.err ex => (Outcome.err ex, i.2.1, i.2.2)

/-- Full expansion of `tramp!` for a nonempty binding list given as head
binding plus tail: the single-binding arm when the tail is empty, else the
multi-binding arm recursing on the tail. -/
def trampGo : Var → Exp ε → List (Var × Exp ε) → Block ε → Store → Res ε
  | v, e, [], B => tramp1 v e B
  | v, e, (v2, e2) :: t, B => trampCons v e (trampGo v2 e2 t B)

/-- The macro itself, as a matcher over the binding list: both arms
require at least one binding, so a zero-binding invocation matches no arm
and has no expansion. -/
def tramp : List (Var × Exp ε) → Block ε → Option (Store → Res ε)
  | [], _ => none
  | (v, e) :: t, B => some (trampGo v e t B)

/-- A binding whose new-value expression is a literal value, as in the
crate tests (`FOO: 100`, `BAR: "A".to_string()`). -/
def pureE (n : Val) : Exp ε := fun s => (Outcome.ok n, s, [])

/-- A new-value expression that unwinds (panics) with payload `ex`. -/
def failE (ex : ε) : Exp ε := fun s => (Outcome.err ex, s, [])

/-- A new-value expression that reads the current value of slot `v`. -/
def readE (v : Var) : Exp ε := fun s => (Outcome.ok (s v), s, [])

/-- Turn a list of (slot, literal value) bindings into macro bindings. -/
def pureBindings (bs : List (Var × Val)) : List (Var × Exp ε) :=
  bs.map fun p => (p.1, pureE p.2)

/-- The install events of a list of literal bindings, declaration order. -/
def installEvents (bs : List (Var × Val)) : List Event :=
  bs.map fun p => Event.install p.1 p.2

/-- The restore events of a list of literal bindings in declaration order:
each binding restore carries the value its slot held just before its own
install. -/
def restoreEvents : Store → List (Var × Val) → List Event
  | _, [] => []
  | s, (v, n) :: t => Event.restore v (s v) :: restoreEvents (update s v n) t

/-- The store after installing a list of literal bindings in order. -/
def installStore : Store → List (Var × Val) → Store
  | s, [] => s
  | s, (v, n) :: t => installStore (update s v n) t

/-- The slot an event is about. -/
def eventVar : Event → Var
  | Event.install v _ => v
  | Event.restore v _ => v

/-- Reduction of the single-binding expansion at a literal binding: the
install always succeeds, capturing the prior slot value, and the deferred
restore fires around the block on either exit path. -/
theorem tramp1_pure {ε : Type} (v : Var) (n : Val) (B : Block ε) (s : Store) :
    tramp1 v (pureE n) B s =
      ((B (update s v n)).1,
       update (B (update s v n)).2.1 v (s v),
       Event.install v n :: ((B (update s v n)).2.2 ++ [Event.restore v (s v)])) := by
  simp [tramp1, install, pureE]

/-- Reduction of the multi-binding head expansion at a literal binding:
like the single-binding case, but the value of the recursive tail is
dropped by the trailing semicolon. -/
theorem trampCons_pure {ε : Type} (v : Var) (n : Val) (inner : Store → Res ε)
    (s : Store) :
    trampCons v (pureE n) inner s =
      (discardVal (inner (update s v n)).1,
       update (inner (update s v n)).2.1 v (s v),
       Event.install v n :: ((inner (update s v n)).2.2 ++ [Event.restore v (s v)])) := by
  simp [trampCons, install, pureE]

/-- Dropping a value twice is the same as dropping it once. -/
theorem discardVal_discardVal {ε : Type} (o : Outcome ε) :
    discardVal (discardVal o) = discardVal o := by
  cases o <;> rfl

/-- Full characterization of an overlay whose bindings are all literal
values: the outcome is the block outcome (dropped to unit when there is
more than one binding), every overridden slot reads its pre-overlay value
afterwards while every other slot keeps the block's writes, and the trace
is the installs in declaration order, then the block's events, then the
restores in reverse declaration order. -/
theorem trampGo_pure_spec {ε : Type} (bs : List (Var × Val)) :
    ∀ (v : Var) (n : Val) (B : Block ε) (s : Store),
      (trampGo v (pureE n) (pureBindings bs) B s).1
        = (match bs with
           | [] => (B (installStore s ((v, n) :: bs))).1
           | _ :: _ => discardVal (B (installStore s ((v, n) :: bs))).1) ∧
      (∀ w, ((trampGo v (pureE n) (pureBindings bs) B s).2.1) w
        = if w ∈ (v :: bs.map Prod.fst) then s w
          else ((B (installStore s ((v, n) :: bs))).2.1) w) ∧
      (trampGo v (pureE n) (pureBindings bs) B s).2.2
        = installEvents ((v, n) :: bs)
            ++ (B (installStore s ((v, n) :: bs))).2.2
            ++ (restoreEvents s ((v, n) :: bs)).reverse := by
  induction bs with
  | nil =>
    intro v n B s
    have hgo : trampGo v (pureE n) (pureBindings ([] : List (Var × Val))) B s
        = tramp1 v (pureE n) B s := rfl
    rw [hgo, tramp1_pure]
    refine ⟨rfl, ?_, ?_⟩
    · intro w
      by_cases h : w = v
      · subst h; simp [update, installStore]
      · simp [update, installStore, h]
    · simp [installEvents, restoreEvents, installStore]
  | cons hd tl ih =>
    obtain ⟨v2, n2⟩ := hd
    intro v n B s
    have hgo : trampGo v (pureE n) (pureBindings ((v2, n2) :: tl)) B s
        = trampCons v (pureE n) (trampGo v2 (pureE n2) (pureBindings tl) B) s := rfl
    obtain ⟨ih1, ih2, ih3⟩ := ih v2 n2 B (update s v n)
    have hst : installStore (update s v n) ((v2, n2) :: tl)
        = installStore s ((v, n) :: (v2, n2) :: tl) := rfl
    rw [hgo, trampCons_pure]
    dsimp only
    refine ⟨?_, ?_, ?_⟩
    · rw [ih1]
      cases tl <;> simp [hst, discardVal_discardVal]
    · intro w
      by_cases h : w = v
      · subst h; simp [update]
      · rw [show update (trampGo v2 (pureE n2) (pureBindings tl) B
              (update s v n)).2.1 v (s v) w
            = (trampGo v2 (pureE n2) (pureBindings tl) B (update s v n)).2.1 w
            from by simp [update, h], ih2 w]
        by_cases h2 : w ∈ v2 :: tl.map Prod.fst
        · simp [h2, h, update]
        · simp [h2, h, hst]
    · rw [ih3]
      simp [installEvents, restoreEvents, installStore, List.append_assoc]

/-- Claim C1: for a slot `v` with prior value `s v`, if the block of the
single-binding overlay `tramp!{v: n => B}` completes normally, then after
the overlay the slot reads the value it held immediately before the
install. -/
theorem c1_restore_on_normal_exit {ε : Type} (v : Var) (n : Val) (B : Block ε)
    (s : Store) (r : Val) (s2 : Store) (evs : List Event)
    (h : B (update s v n) = (Outcome.ok r, s2, evs)) :
    ((tramp1 v (pureE n) B s).2.1) v = s v := by
  simp [tramp1, install, pureE, update, h]

/-- Claim C1 witness: slot 0 starts at 0, is overlaid with 100 around a
normally completing block, and reads 0 again afterwards. -/
theorem c1_witness :
    ((tramp1 (ε := Nat) 0 (pureE (Val.nat 100))
        (fun s => (Outcome.ok Val.unit, s, ([] : List Event)))
        (fun _ => Val.nat 0)).2.1) 0 = Val.nat 0 :=
  c1_restore_on_normal_exit 0 (Val.nat 100) _ _ Val.unit _ [] rfl

/-- Claim C2: if the block of a single-binding overlay unwinds with error
`e`, then after the unwind has propagated out of the overlay the slot
again reads its prior value, and the propagated error is `e` itself,
unchanged. -/
theorem c2_restore_on_unwind {ε : Type} (v : Var) (n : Val) (B : Block ε)
    (s : Store) (e : ε) (s2 : Store) (evs : List Event)
    (h : B (update s v n) = (Outcome.err e, s2, evs)) :
    (tramp1 v (pureE n) B s).1 = Outcome.err e ∧
    ((tramp1 v (pureE n) B s).2.1) v = s v := by
  simp [tramp1, install, pureE, update, h]

/-- Claim C2 witness: slot 0 starts at 0, the block unwinds with payload
7, the overlay propagates exactly that error and the slot reads 0. -/
theorem c2_witness :
    (tramp1 (ε := Nat) 0 (pureE (Val.nat 100))
        (fun s => (Outcome.err 7, s, ([] : List Event)))
        (fun _ => Val.nat 0)).1 = Outcome.err 7 ∧
    ((tramp1 (ε := Nat) 0 (pureE (Val.nat 100))
        (fun s => (Outcome.err 7, s, ([] : List Event)))
        (fun _ => Val.nat 0)).2.1) 0 = Val.nat 0 :=
  c2_restore_on_unwind 0 (Val.nat 100) _ _ 7 _ [] rfl

/-- Claim C9: the value captured at install time is an independent
duplicate of the prior value, not a reference to the slot: whatever the
block does to the slot (mutation, reassignment, or unwinding), after the
overlay the slot reads its pre-overlay value, and the deferred restore
event carries exactly that captured prior value. -/
theorem c9_capture_is_independent {ε : Type} (v : Var) (n : Val) (B : Block ε)
    (s : Store) :
    ((tramp1 v (pureE n) B s).2.1) v = s v ∧
    (tramp1 v (pureE n) B s).2.2 =
      Event.install v n :: ((B (update s v n)).2.2 ++ [Event.restore v (s v)]) := by
  simp [tramp1, install, pureE, update]

/-- Claim C5: an inner overlay of a slot already overridden by an outer,
still-active overlay captures the outer-overridden value `n1` as its own
old value (visible in its restore event); when the inner overlay exits the
slot reads `n1`, the outer value, and only when the outer overlay also
exits does the slot read its root value `s v` again. -/
theorem c5_nested_same_variable {ε : Type} (v : Var) (n1 n2 : Val)
    (inner : Block ε) (s : Store) :
    ((tramp1 v (pureE n2) inner (update s v n1)).2.1) v = n1 ∧
    (tramp1 v (pureE n2) inner (update s v n1)).2.2 =
      Event.install v n2 ::
        ((inner (update (update s v n1) v n2)).2.2 ++ [Event.restore v n1]) ∧
    ((tramp1 v (pureE n1) (fun s1 => tramp1 v (pureE n2) inner s1) s).2.1) v
      = s v := by
  refine ⟨by simp [tramp1, install, pureE, update], ?_, ?_⟩
  · simp [tramp1, install, pureE, update]
  · simp [tramp1, install, pureE, update]

/-- Claim C3: the two-binding overlay `tramp!{A: a1, B: b1 => blk}` and
the nested single-binding overlays `tramp!{A: a1 => { tramp!{B: b1 => blk} }}`
behave identically for every block and every starting store: the same
final value of every slot, the same event trace (so the block runs once,
on the same store, seeing the same values), unwinds propagate from one
form exactly when they propagate from the other, and one completes
normally exactly when the other does. -/
theorem c3_multi_equals_nested {ε : Type} (vA vB : Var) (a1 b1 : Val)
    (blk : Block ε) (s : Store) :
    (∀ w, ((trampGo vA (pureE a1) [(vB, pureE b1)] blk s).2.1) w
        = ((tramp1 vA (pureE a1) (fun s1 => tramp1 vB (pureE b1) blk s1) s).2.1) w) ∧
    (trampGo vA (pureE a1) [(vB, pureE b1)] blk s).2.2
        = (tramp1 vA (pureE a1) (fun s1 => tramp1 vB (pureE b1) blk s1) s).2.2 ∧
    (∀ e : ε, (trampGo vA (pureE a1) [(vB, pureE b1)] blk s).1 = Outcome.err e
        ↔ (tramp1 vA (pureE a1) (fun s1 => tramp1 vB (pureE b1) blk s1) s).1
            = Outcome.err e) ∧
    ((∃ r, (trampGo vA (pureE a1) [(vB, pureE b1)] blk s).1 = Outcome.ok r)
        ↔ (∃ r, (tramp1 vA (pureE a1) (fun s1 => tramp1 vB (pureE b1) blk s1) s).1
            = Outcome.ok r)) := by
  rcases hblk : blk (update (update s vA a1) vB b1) with ⟨bo, bst, bevs⟩
  cases bo <;>
    simp [trampGo, trampCons, tramp1, install, pureE, discardVal, hblk]

/-- The restore list of a literal binding list contains exactly one
restore per binding, about that binding's slot, in declaration order. -/
theorem restoreEvents_map_eventVar (bs : List (Var × Val)) :
    ∀ s : Store, (restoreEvents s bs).map eventVar = bs.map Prod.fst := by
  induction bs with
  | nil => intro s; rfl
  | cons hd tl ih =>
    obtain ⟨v, n⟩ := hd
    intro s
    simp [restoreEvents, eventVar, ih (update s v n)]

/-- Claim C4: in a multi-binding overlay over literal bindings, the
installs happen in declaration order, then the block runs, then the
restorations fire in exactly the reverse order; the restore segment holds
exactly one restoration per binding (one event per binding, about that
binding's slot). -/
theorem c4_install_declaration_order_restore_reverse {ε : Type} (v : Var)
    (n : Val) (bs : List (Var × Val)) (B : Block ε) (s : Store) :
    (trampGo v (pureE n) (pureBindings bs) B s).2.2
      = installEvents ((v, n) :: bs)
          ++ (B (installStore s ((v, n) :: bs))).2.2
          ++ (restoreEvents s ((v, n) :: bs)).reverse ∧
    (restoreEvents s ((v, n) :: bs)).map eventVar
      = ((v, n) :: bs).map Prod.fst := by
  exact ⟨(trampGo_pure_spec bs v n B s).2.2, restoreEvents_map_eventVar _ s⟩

/-- Claim C6 counterexample: in the two-binding overlay
`tramp!{0: 1, 1: "A" => blk}` whose block completes normally with the
value 42, the overlay itself evaluates to unit, not to the block value:
the recursive call in the multi-binding arm is a statement whose value is
dropped. -/
theorem c6_counterexample :
    ((fun s => (Outcome.ok (Val.nat 42), s, ([] : List Event)) : Block Nat)
        (fun _ => Val.unit)).1 = Outcome.ok (Val.nat 42) ∧
    (trampGo (ε := Nat) 0 (pureE (Val.nat 1)) [(1, pureE (Val.str "A"))]
        (fun s => (Outcome.ok (Val.nat 42), s, ([] : List Event)))
        (fun _ => Val.unit)).1 = Outcome.ok Val.unit ∧
    (Outcome.ok Val.unit : Outcome Nat) ≠ Outcome.ok (Val.nat 42) := by
  refine ⟨rfl, rfl, by decide⟩

/-- Claim C6 as amended: a literal-binding overlay executes the block and
propagates its unwind unchanged, but its value is the block value only
for a single-binding overlay; with two or more bindings the multi-binding
arm drops the block value and the overlay evaluates to unit.  In all
cases every overridden slot reads its pre-overlay value afterwards, while
slots the overlay does not bind keep the block's writes. -/
theorem c6_return_value_amended {ε : Type} (v : Var) (n : Val)
    (bs : List (Var × Val)) (B : Block ε) (s : Store) :
    (trampGo v (pureE n) (pureBindings bs) B s).1
      = (match bs with
         | [] => (B (installStore s ((v, n) :: bs))).1
         | _ :: _ => discardVal (B (installStore s ((v, n) :: bs))).1) ∧
    (∀ w, ((trampGo v (pureE n) (pureBindings bs) B s).2.1) w
      = if w ∈ (v :: bs.map Prod.fst) then s w
        else ((B (installStore s ((v, n) :: bs))).2.1) w) := by
  exact ⟨(trampGo_pure_spec bs v n B s).1, (trampGo_pure_spec bs v n B s).2.1⟩

/-- Claim C8 counterexample: the macro has no arm for an empty binding
list — a zero-binding invocation has no expansion at all, rather than
expanding to the bare block. -/
theorem c8_counterexample :
    tramp ([] : List (Var × Exp Nat))
      (fun s => (Outcome.ok Val.unit, s, ([] : List Event))) = none := rfl

/-- Claim C8 as amended: the recursion of the multi-binding arm bottoms
out at the single-binding arm, not at an empty binding list: a
one-binding invocation expands to the single-binding overlay, and a
zero-binding invocation matches neither macro arm and is rejected. -/
theorem c8_base_case_amended {ε : Type} (B : Block ε) (v : Var) (e : Exp ε) :
    tramp ([] : List (Var × Exp ε)) B = none ∧
    tramp [(v, e)] B = some (tramp1 v e B) := ⟨rfl, rfl⟩

/-- Claim C7: if the new-value expression of a later binding unwinds, the
overlay expands, but running it installs only the earlier bindings, whose
already-registered restorations all still fire in reverse order as the
unwind propagates: the unwind leaves the overlay with the original error,
every slot (installed or not) reads exactly its pre-overlay value, and
the trace shows the earlier installs followed by their restores in
reverse order — no slot is left holding an overlay value. -/
theorem c7_partial_failure {ε : Type} (pre : List (Var × Val)) (v : Var)
    (ex : ε) (rest : List (Var × Exp ε)) (B : Block ε) :
    ∃ f, tramp (pureBindings pre ++ (v, failE ex) :: rest) B = some f ∧
      ∀ s : Store,
        (f s).1 = Outcome.err ex ∧
        (∀ w, ((f s).2.1) w = s w) ∧
        (f s).2.2 = installEvents pre ++ (restoreEvents s pre).reverse := by
  induction pre with
  | nil =>
    refine ⟨trampGo v (failE ex) rest B, rfl, ?_⟩
    intro s
    rcases rest with _ | ⟨⟨rv, re⟩, rt⟩ <;>
      simp [trampGo, tramp1, trampCons, install, failE, installEvents,
        restoreEvents]
  | cons hd tl ih =>
    obtain ⟨w0, m⟩ := hd
    obtain ⟨f', hf', hprops⟩ := ih
    rcases hL : pureBindings (ε := ε) tl ++ (v, failE ex) :: rest with _ | ⟨⟨xv, xe⟩, xs⟩
    · exact absurd hL (by cases tl <;> simp [pureBindings])
    · rw [hL] at hf'
      have hEq : trampGo xv xe xs B = f' := Option.some.inj hf'
      refine ⟨trampGo w0 (pureE m) (pureBindings tl ++ (v, failE ex) :: rest) B,
        by simp [pureBindings, tramp], ?_⟩
      intro s
      have hgo : trampGo w0 (pureE m) (pureBindings tl ++ (v, failE ex) :: rest) B s
          = trampCons w0 (pureE m) f' s := by
        rw [hL, show trampGo w0 (pureE m) ((xv, xe) :: xs) B
              = trampCons w0 (pureE m) (trampGo xv xe xs B) from rfl, hEq]
      obtain ⟨p1, p2, p3⟩ := hprops (update s w0 m)
      rw [hgo, trampCons_pure]
      dsimp only
      refine ⟨?_, ?_, ?_⟩
      · rw [p1]; rfl
      · intro u
        by_cases h : u = w0
        · subst h; simp [update]
        · simp [update, h, p2 u]
      · rw [p3]
        simp [installEvents, restoreEvents, List.append_assoc]

/-- Claim C10: in a two-binding overlay the new-value expression of the
second binding runs only after the first binding is installed: when the
second expression reads the first slot, the value it observes and
installs into the second slot is the first binding's overridden value
`n1`, not the first slot's prior value, as both the install event for the
second slot and the store the block runs in show. -/
theorem c10_later_binding_sees_overridden {ε : Type} (v1 v2 : Var) (n1 : Val)
    (B : Block ε) (s : Store) (h : v2 ≠ v1) :
    (trampGo v1 (pureE n1) [(v2, readE v1)] B s).2.2
      = [Event.install v1 n1, Event.install v2 n1]
          ++ (B (update (update s v1 n1) v2 n1)).2.2
          ++ [Event.restore v2 (s v2), Event.restore v1 (s v1)] ∧
    (update (update s v1 n1) v2 n1) v2 = n1 := by
  have h1 : (update s v1 n1) v1 = n1 := by simp [update]
  have h2 : (update s v1 n1) v2 = s v2 := by simp [update, h]
  constructor
  · rcases hB : B (update (update s v1 n1) v2 n1) with ⟨bo, bst, bevs⟩
    simp [trampGo, trampCons, tramp1, install, readE, pureE, discardVal,
      h1, h2, hB]
  · simp [update]

/-- Claim C10 witness: slots 0 and 1 both start at 0; overlaying slot 0
with 5 and slot 1 with the value read from slot 0 makes the second
install write 5 — the overridden value — and the trace and block store
show it. -/
theorem c10_witness :
    (trampGo (ε := Nat) 0 (pureE (Val.nat 5))
        [(1, readE 0)]
        (fun s => (Outcome.ok Val.unit, s, ([] : List Event)))
        (fun _ => Val.nat 0)).2.2
      = [Event.install 0 (Val.nat 5), Event.install 1 (Val.nat 5)]
          ++ ((fun s => (Outcome.ok Val.unit, s, ([] : List Event)) : Block Nat)
                (update (update (fun _ => Val.nat 0) 0 (Val.nat 5)) 1 (Val.nat 5))).2.2
          ++ [Event.restore 1 (Val.nat 0), Event.restore 0 (Val.nat 0)] ∧
    (update (update (fun _ => Val.nat 0) 0 (Val.nat 5)) 1 (Val.nat 5)) 1
      = Val.nat 5 :=
  c10_later_binding_sees_overridden 0 1 (Val.nat 5)
    (fun s => (Outcome.ok Val.unit, s, ([] : List Event)))
    (fun _ => Val.nat 0) (by decide)

/-- The crate test `tests::single_variable` in the model: slot 0 (`FOO`)
starts at 0 and slot 1 (`BAR`) at the empty string; inside
`tramp!{FOO: 100 => ...}` the block sees 100 and the empty string, and
after the overlay both slots read their initial values again. -/
theorem crate_test_single_variable :
    (update (fun v => if v = 0 then Val.nat 0 else Val.str "") 0
        (Val.nat 100)) 0 = Val.nat 100 ∧
    (update (fun v => if v = 0 then Val.nat 0 else Val.str "") 0
        (Val.nat 100)) 1 = Val.str "" ∧
    ((tramp1 (ε := Nat) 0 (pureE (Val.nat 100))
        (fun s => (Outcome.ok Val.unit, s, ([] : List Event)))
        (fun v => if v = 0 then Val.nat 0 else Val.str "")).2.1) 0
      = Val.nat 0 ∧
    ((tramp1 (ε := Nat) 0 (pureE (Val.nat 100))
        (fun s => (Outcome.ok Val.unit, s, ([] : List Event)))
        (fun v => if v = 0 then Val.nat 0 else Val.str "")).2.1) 1
      = Val.str "" :=
  ⟨rfl, rfl, rfl, rfl⟩

/-- The crate test `tests::two_variables` in the model: inside
`tramp!{FOO: 1, BAR: "A" => ...}` the block sees 1 and "A", and after the
overlay both slots read their initial values again. -/
theorem crate_test_two_variables :
    (installStore (fun v => if v = 0 then Val.nat 0 else Val.str "")
        [(0, Val.nat 1), (1, Val.str "A")]) 0 = Val.nat 1 ∧
    (installStore (fun v => if v = 0 then Val.nat 0 else Val.str "")
        [(0, Val.nat 1), (1, Val.str "A")]) 1 = Val.str "A" ∧
    ((trampGo (ε := Nat) 0 (pureE (Val.nat 1)) [(1, pureE (Val.str "A"))]
        (fun s => (Outcome.ok Val.unit, s, ([] : List Event)))
        (fun v => if v = 0 then Val.nat 0 else Val.str "")).2.1) 0
      = Val.nat 0 ∧
    ((trampGo (ε := Nat) 0 (pureE (Val.nat 1)) [(1, pureE (Val.str "A"))]
        (fun s => (Outcome.ok Val.unit, s, ([] : List Event)))
        (fun v => if v = 0 then Val.nat 0 else Val.str "")).2.1) 1
      = Val.str "" :=
  ⟨rfl, rfl, rfl, rfl⟩

end Parameterize
